import Mathlib

/-!
Shallow embedding of the wavefmt library (src/wavefmt.c) and proofs about it.

Modelling conventions:
- C doubles and floats are modelled as exact rationals.  For every value this
  development evaluates (small integers, halves, quotients by 32767 whose
  magnitude fits well inside a double), the C double computation is exact, so
  the rational model agrees with the machine arithmetic.
- Files are byte lists with a position and an end-of-file indicator, mirroring
  C stdio: fread sets the EOF indicator on a short read and leaves the unread
  tail of the destination buffer unchanged; fseek clears the EOF indicator.
- Uninitialized C locals are modelled as zero; every theorem below is
  insensitive to that choice (noted where it arises).
- Loops whose termination depends on the file contents take a fuel argument;
  a result of none means the loop is still running after that many iterations.
-/

/-- Four bytes of a C char[4] chunk tag. -/
abbrev Tag := ℕ × ℕ × ℕ × ℕ

/-- ASCII bytes of the literal RIFF. -/
def RIFF_lit : Tag := (82, 73, 70, 70)

/-- ASCII bytes of the literal WAVE. -/
def WAVE_lit : Tag := (87, 65, 86, 69)

/-- ASCII bytes of the literal fmt-space. -/
def FMT_lit : Tag := (102, 109, 116, 32)

/-- ASCII bytes of the literal data. -/
def DATA_lit : Tag := (100, 97, 116, 97)

/-- Little-endian byte list of a 16-bit value. -/
def toLE2 (v : ℕ) : List ℕ := [v % 256, v / 256 % 256]

/-- Little-endian byte list of a 32-bit value. -/
def toLE4 (v : ℕ) : List ℕ :=
  [v % 256, v / 256 % 256, v / 2 ^ 16 % 256, v / 2 ^ 24 % 256]

/-- Decode up to two little-endian bytes. -/
def le16 (l : List ℕ) : ℕ := (l.take 2).foldr (fun b acc => b + 256 * acc) 0

/-- Decode up to four little-endian bytes. -/
def le32 (l : List ℕ) : ℕ := (l.take 4).foldr (fun b acc => b + 256 * acc) 0

/-- List of the four tag bytes. -/
def tagBytes (t : Tag) : List ℕ := [t.1, t.2.1, t.2.2.1, t.2.2.2]

/-- Overwrite the first bytes of an old buffer with freshly read bytes,
keeping the unread tail (C fread semantics on a short read). -/
def mergeList (bs old : List ℕ) : List ℕ := bs ++ old.drop bs.length

/-- Overwrite a 4-byte tag buffer with up to four freshly read bytes. -/
def mergeTag (bs : List ℕ) (old : Tag) : Tag :=
  match bs with
  | [] => old
  | [a] => (a, old.2.1, old.2.2.1, old.2.2.2)
  | [a, b] => (a, b, old.2.2.1, old.2.2.2)
  | [a, b, c] => (a, b, c, old.2.2.2)
  | a :: b :: c :: d :: _ => (a, b, c, d)

/-- A C stdio stream over an immutable byte list: contents, current position,
end-of-file indicator. -/
structure CFile where
  data : List ℕ
  pos : ℕ
  eof : Bool
deriving Repr, DecidableEq

/-- Model of fread(buf, 1, 4) into a char[4]: returns the new buffer contents,
the number of bytes read, and the advanced stream.  A short read sets the
end-of-file indicator and keeps the old tail of the buffer. -/
def freadTag (fp : CFile) (old : Tag) : Tag × ℕ × CFile :=
  let avail := min 4 (fp.data.length - fp.pos)
  (mergeTag ((fp.data.drop fp.pos).take 4) old,
   avail,
   { fp with pos := fp.pos + avail, eof := fp.eof || decide (avail < 4) })

/-- Model of fread(&v, 4, 1) for a uint32: returns the (possibly partially
overwritten) value, the item count (0 or 1), and the advanced stream. -/
def freadU32 (fp : CFile) (old : ℕ) : ℕ × ℕ × CFile :=
  let avail := min 4 (fp.data.length - fp.pos)
  (le32 (mergeList ((fp.data.drop fp.pos).take 4) (toLE4 old)),
   if avail = 4 then 1 else 0,
   { fp with pos := fp.pos + avail, eof := fp.eof || decide (avail < 4) })

/-- Model of fread(&v, 2, 1) for a uint16. -/
def freadU16 (fp : CFile) (old : ℕ) : ℕ × ℕ × CFile :=
  let avail := min 2 (fp.data.length - fp.pos)
  (le16 (mergeList ((fp.data.drop fp.pos).take 2) (toLE2 old)),
   if avail = 2 then 1 else 0,
   { fp with pos := fp.pos + avail, eof := fp.eof || decide (avail < 2) })

/-- Model of fseek(fp, k, SEEK_CUR) for k >= 0: moves the position and clears
the end-of-file indicator (C7.21.9.2). -/
def cfseek (fp : CFile) (k : ℕ) : CFile :=
  { fp with pos := fp.pos + k, eof := false }

/-- Modelled from the spec: struct wavefmt (declared in wavefmt.h, which is not
under src/); field list, order and widths from the data model in section 3 of
the spec (canonical 44-byte RIFF/WAVE header). -/
structure Wavefmt where
  riff_tag : Tag
  riff_size : ℕ
  wave_tag : Tag
  fmt_tag : Tag
  fmt_size : ℕ
  format : ℕ
  channels : ℕ
  samplerate : ℕ
  byterate : ℕ
  blockalign : ℕ
  bitspersample : ℕ
  data_tag : Tag
  data_size : ℕ
deriving Repr, DecidableEq

/-- Modelled from the spec: WAVEFMT_PCM = 1 (wavefmt.h is not under src/). -/
def WAVEFMT_PCM : ℕ := 1

/-- Modelled from the spec: WAVEFMT_FLOAT = 3 (wavefmt.h is not under src/). -/
def WAVEFMT_FLOAT : ℕ := 3

/-- Modelled from the spec: the on-disk bytes of a struct wavefmt, 13 fields
in the order of section 3, little-endian, no padding (the C fields are all
naturally aligned, so sizeof(struct wavefmt) = 44). -/
def serializeWavefmt (w : Wavefmt) : List ℕ :=
  tagBytes w.riff_tag ++ toLE4 w.riff_size ++ tagBytes w.wave_tag ++
  tagBytes w.fmt_tag ++ toLE4 w.fmt_size ++ toLE2 w.format ++
  toLE2 w.channels ++ toLE4 w.samplerate ++ toLE4 w.byterate ++
  toLE2 w.blockalign ++ toLE2 w.bitspersample ++ tagBytes w.data_tag ++
  toLE4 w.data_size

/-- Embedding of read_fmt (wavefmt.c lines 7-34): read fmt_size, then the six
format fields when fmt_size >= 16, then skip to the end of the chunk.
Returns the updated struct, stream, and the local bytecount. -/
def read_fmt (fmt : Wavefmt) (fp : CFile) : Wavefmt × CFile × ℕ :=
  let r1 := freadU32 fp fmt.fmt_size
  let fmt := { fmt with fmt_size := r1.1 }
  let fp := r1.2.2
  let bc := r1.2.1 * 4
  let step :=
    if 16 ≤ fmt.fmt_size then
      let r2 := freadU16 fp fmt.format
      let fmt := { fmt with format := r2.1 }
      let r3 := freadU16 r2.2.2 fmt.channels
      let fmt := { fmt with channels := r3.1 }
      let r4 := freadU32 r3.2.2 fmt.samplerate
      let fmt := { fmt with samplerate := r4.1 }
      let r5 := freadU32 r4.2.2 fmt.byterate
      let fmt := { fmt with byterate := r5.1 }
      let r6 := freadU16 r5.2.2 fmt.blockalign
      let fmt := { fmt with blockalign := r6.1 }
      let r7 := freadU16 r6.2.2 fmt.bitspersample
      let fmt := { fmt with bitspersample := r7.1 }
      (fmt, r7.2.2,
       bc + r2.2.1 * 2 + r3.2.1 * 2 + r4.2.1 * 4 + r5.2.1 * 4 + r6.2.1 * 2 +
         r7.2.1 * 2)
    else
      (fmt, fp, bc)
  let fmt := step.1
  let fp := step.2.1
  let bc := step.2.2
  let target := (fmt.fmt_size + 4) % 2 ^ 32
  if bc < target then
    (fmt, cfseek fp (target - bc), target)
  else
    (fmt, fp, bc)

/-- Embedding of read_data (wavefmt.c lines 37-48): read data_size and leave
the position at the start of the payload. -/
def read_data (fmt : Wavefmt) (fp : CFile) : Wavefmt × CFile × ℕ :=
  let r := freadU32 fp fmt.data_size
  ({ fmt with data_size := r.1 }, r.2.2, r.2.1 * 4)

/-- Embedding of the chunk-scanning while loop of wavefmt_read_header
(wavefmt.c lines 79-98).  The loop exits when the end-of-file indicator is
set, falling through to the success label; a data chunk jumps to success.
The uninitialized locals chunktag and chunksize are modelled as zero (no
theorem below depends on that choice).  none means the loop is still running
after the given fuel. -/
def readHeaderLoop : ℕ → Wavefmt → CFile → ℕ → Option (Wavefmt × CFile × ℕ)
  | fuel, fmt, fp, bc =>
    if fp.eof then
      some (fmt, fp, bc)
    else
      match fuel with
      | 0 => none
      | fuel + 1 =>
        let r := freadTag fp (0, 0, 0, 0)
        let tag := r.1
        let fp := r.2.2
        let bc := bc + r.2.1
        if tag = FMT_lit then
          let fmt := { fmt with fmt_tag := tag }
          let s := read_fmt fmt fp
          readHeaderLoop fuel s.1 s.2.1 (bc + s.2.2)
        else if tag = DATA_lit then
          let fmt := { fmt with data_tag := tag }
          let s := read_data fmt fp
          some (s.1, s.2.1, bc + s.2.2)
        else
          let r2 := freadU32 fp 0
          let fp := cfseek r2.2.2 r2.1
          readHeaderLoop fuel fmt fp (bc + r2.2.1 * 4 + r2.1)

/-- Embedding of wavefmt_read_header (wavefmt.c lines 59-104).  The struct
argument is the caller's (possibly uninitialized) struct.  Returns the struct,
the stream, and the returned long (0 on a tag-check failure); none means the
chunk loop is still running after the given fuel. -/
def wavefmt_read_header (fuel : ℕ) (fmt : Wavefmt) (fp : CFile) :
    Option (Wavefmt × CFile × ℕ) :=
  let r1 := freadTag fp fmt.riff_tag
  let fmt := { fmt with riff_tag := r1.1 }
  let fp := r1.2.2
  let bc := r1.2.1
  if fmt.riff_tag = RIFF_lit then
    let r2 := freadU32 fp fmt.riff_size
    let fmt := { fmt with riff_size := r2.1 }
    let bc := bc + r2.2.1 * 4
    let r3 := freadTag r2.2.2 fmt.wave_tag
    let fmt := { fmt with wave_tag := r3.1 }
    let bc := bc + r3.2.1
    if fmt.wave_tag = WAVE_lit then
      readHeaderLoop fuel fmt r3.2.2 bc
    else
      some (fmt, r3.2.2, 0)
  else
    some (fmt, fp, 0)

/-- Embedding of wavefmt_write_header (wavefmt.c lines 112-115):
fwrite(fmt, sizeof(*fmt), 1, fp).  The write is assumed to succeed, so the
returned long is the fwrite item count 1, not a byte count. -/
def wavefmt_write_header (fmt : Wavefmt) (fp : CFile) : ℕ × CFile :=
  (1, { fp with data := fp.data ++ serializeWavefmt fmt,
                pos := fp.pos + (serializeWavefmt fmt).length })

/-- Observable outcome of wavefmt_dump: return code plus whether the file
handle was opened and whether it was closed. -/
structure DumpResult where
  ret : ℤ
  opened : Bool
  closed : Bool
deriving Repr, DecidableEq

/-- Embedding of wavefmt_dump (wavefmt.c lines 168-190).  openOk says whether
fopen succeeds; init is the uninitialized local struct fmt.  none means the
header parse never returns within the fuel. -/
def wavefmt_dump (fuel : ℕ) (openOk : Bool) (init : Wavefmt)
    (contents : List ℕ) : Option DumpResult :=
  if openOk then
    match wavefmt_read_header fuel init ⟨contents, 0, false⟩ with
    | none => none
    | some r =>
      if r.2.2 = 0 then
        some ⟨-3, true, false⟩
      else
        some ⟨0, true, true⟩
  else
    some ⟨-2, false, false⟩

/-- Embedding of clamp (wavefmt.c lines 192-195). -/
def clamp (d mn mx : ℚ) : ℚ :=
  let t := if d < mn then mn else d
  if mx < t then mx else t

/-- C cast (int) of a double: truncation toward zero. -/
def ctrunc (q : ℚ) : ℤ := if 0 ≤ q then ⌊q⌋ else ⌈q⌉

/-- Embedding of the PCM16 encode expression of wavefmt.c lines 231, 238, 275,
282: (int)(32768.5 + 32767.0 * y) - 32768. -/
def pcm16_encode (y : ℚ) : ℤ := ctrunc ((32768.5 : ℚ) + 32767 * y) - 32768

/-- Embedding of the PCM16 decode expression x = samp16 / 32767.0. -/
def pcm16_decode (s : ℤ) : ℚ := (s : ℚ) / 32767

/-- An identity filter callback: f(x) = x with trivial state. -/
def identity_cb : ℚ → Unit → ℚ × Unit := fun x s => (x, s)

/-- Embedding of the first while loop of filter_pcm2float (wavefmt.c lines
205-210).  The input stream is the list of int16 samples the successive
freads deliver; samp16 is the stale buffer contents reused when fread returns
0 at end of file (the loop body still converts, filters and writes in that
case, and n does not advance).  none means the loop is still running after
the given fuel. -/
def filter_pcm2float_loop {σ : Type} (f : ℚ → σ → ℚ × σ) :
    ℕ → ℕ → ℕ → ℤ → List ℤ → σ → Option (List ℚ × σ × ℕ)
  | fuel, n, Nin, samp16, input, st =>
    if n < Nin then
      match fuel with
      | 0 => none
      | fuel + 1 =>
        match input with
        | s :: rest =>
          let x := pcm16_decode s
          let r := f x st
          let y := clamp r.1 (-1) 1
          (filter_pcm2float_loop f fuel (n + 1) Nin s rest r.2).map
            (fun o => (y :: o.1, o.2))
        | [] =>
          let x := pcm16_decode samp16
          let r := f x st
          let y := clamp r.1 (-1) 1
          (filter_pcm2float_loop f fuel n Nin samp16 [] r.2).map
            (fun o => (y :: o.1, o.2))
    else
      some ([], st, n)

/-- Embedding of the second while loop of filter_pcm2float and
filter_float2float (ring-out with x = 0.0): the loop while (n < Nout) runs
exactly Nout - n times, here counted down by k. -/
def filter_ringout_float {σ : Type} (f : ℚ → σ → ℚ × σ) :
    ℕ → σ → List ℚ × σ
  | 0, st => ([], st)
  | k + 1, st =>
    let r := f 0 st
    let y := clamp r.1 (-1) 1
    let o := filter_ringout_float f k r.2
    (y :: o.1, o.2)

/-- Embedding of filter_pcm2float (wavefmt.c lines 197-217): stream loop then
ring-out.  The uninitialized local samp16 is modelled as 0. -/
def filter_pcm2float {σ : Type} (fuel : ℕ) (f : ℚ → σ → ℚ × σ) (st : σ)
    (Nin Nout : ℕ) (input : List ℤ) : Option (List ℚ × σ) :=
  (filter_pcm2float_loop f fuel 0 Nin 0 input st).map
    (fun o =>
      let r := filter_ringout_float f (Nout - o.2.2) o.2.1
      (o.1 ++ r.1, r.2))

/-- Embedding of the first while loop of filter_pcm2pcm (wavefmt.c lines
227-233).  Note that the body overwrites samp16 with the encoded output, so
the stale value reused on a failed fread is the previous encoded sample. -/
def filter_pcm2pcm_loop {σ : Type} (f : ℚ → σ → ℚ × σ) :
    ℕ → ℕ → ℕ → ℤ → List ℤ → σ → Option (List ℤ × σ × ℕ)
  | fuel, n, Nin, samp16, input, st =>
    if n < Nin then
      match fuel with
      | 0 => none
      | fuel + 1 =>
        match input with
        | s :: rest =>
          let x := pcm16_decode s
          let r := f x st
          let y := clamp r.1 (-1) 1
          let e := pcm16_encode y
          (filter_pcm2pcm_loop f fuel (n + 1) Nin e rest r.2).map
            (fun o => (e :: o.1, o.2))
        | [] =>
          let x := pcm16_decode samp16
          let r := f x st
          let y := clamp r.1 (-1) 1
          let e := pcm16_encode y
          (filter_pcm2pcm_loop f fuel n Nin e [] r.2).map
            (fun o => (e :: o.1, o.2))
    else
      some ([], st, n)

/-- Embedding of the second while loop of filter_pcm2pcm and filter_float2pcm
(ring-out with x = 0.0, PCM16 output). -/
def filter_ringout_pcm {σ : Type} (f : ℚ → σ → ℚ × σ) :
    ℕ → σ → List ℤ × σ
  | 0, st => ([], st)
  | k + 1, st =>
    let r := f 0 st
    let y := clamp r.1 (-1) 1
    let e := pcm16_encode y
    let o := filter_ringout_pcm f k r.2
    (e :: o.1, o.2)

/-- Embedding of filter_pcm2pcm (wavefmt.c lines 219-241). -/
def filter_pcm2pcm {σ : Type} (fuel : ℕ) (f : ℚ → σ → ℚ × σ) (st : σ)
    (Nin Nout : ℕ) (input : List ℤ) : Option (List ℤ × σ) :=
  (filter_pcm2pcm_loop f fuel 0 Nin 0 input st).map
    (fun o =>
      let r := filter_ringout_pcm f (Nout - o.2.2) o.2.1
      (o.1 ++ r.1, r.2))

/-- Embedding of the first while loop of filter_float2float (wavefmt.c lines
251-255).  The stale buffer is the float x itself. -/
def filter_float2float_loop {σ : Type} (f : ℚ → σ → ℚ × σ) :
    ℕ → ℕ → ℕ → ℚ → List ℚ → σ → Option (List ℚ × σ × ℕ)
  | fuel, n, Nin, x0, input, st =>
    if n < Nin then
      match fuel with
      | 0 => none
      | fuel + 1 =>
        match input with
        | v :: rest =>
          let r := f v st
          let y := clamp r.1 (-1) 1
          (filter_float2float_loop f fuel (n + 1) Nin v rest r.2).map
            (fun o => (y :: o.1, o.2))
        | [] =>
          let r := f x0 st
          let y := clamp r.1 (-1) 1
          (filter_float2float_loop f fuel n Nin x0 [] r.2).map
            (fun o => (y :: o.1, o.2))
    else
      some ([], st, n)

/-- Embedding of filter_float2float (wavefmt.c lines 244-262).  The
uninitialized local x is modelled as 0. -/
def filter_float2float {σ : Type} (fuel : ℕ) (f : ℚ → σ → ℚ × σ) (st : σ)
    (Nin Nout : ℕ) (input : List ℚ) : Option (List ℚ × σ) :=
  (filter_float2float_loop f fuel 0 Nin 0 input st).map
    (fun o =>
      let r := filter_ringout_float f (Nout - o.2.2) o.2.1
      (o.1 ++ r.1, r.2))

/-- Embedding of the first while loop of filter_float2pcm (wavefmt.c lines
272-277). -/
def filter_float2pcm_loop {σ : Type} (f : ℚ → σ → ℚ × σ) :
    ℕ → ℕ → ℕ → ℚ → List ℚ → σ → Option (List ℤ × σ × ℕ)
  | fuel, n, Nin, x0, input, st =>
    if n < Nin then
      match fuel with
      | 0 => none
      | fuel + 1 =>
        match input with
        | v :: rest =>
          let r := f v st
          let y := clamp r.1 (-1) 1
          let e := pcm16_encode y
          (filter_float2pcm_loop f fuel (n + 1) Nin v rest r.2).map
            (fun o => (e :: o.1, o.2))
        | [] =>
          let r := f x0 st
          let y := clamp r.1 (-1) 1
          let e := pcm16_encode y
          (filter_float2pcm_loop f fuel n Nin x0 [] r.2).map
            (fun o => (e :: o.1, o.2))
    else
      some ([], st, n)

/-- Embedding of filter_float2pcm (wavefmt.c lines 264-285). -/
def filter_float2pcm {σ : Type} (fuel : ℕ) (f : ℚ → σ → ℚ × σ) (st : σ)
    (Nin Nout : ℕ) (input : List ℚ) : Option (List ℤ × σ) :=
  (filter_float2pcm_loop f fuel 0 Nin 0 input st).map
    (fun o =>
      let r := filter_ringout_pcm f (Nout - o.2.2) o.2.1
      (o.1 ++ r.1, r.2))

/-- Signed interpretation of a 16-bit little-endian value. -/
def toI16 (v : ℕ) : ℤ := if v < 32768 then (v : ℤ) else (v : ℤ) - 65536

/-- The int16 samples that successive fread(&samp16, 2, 1) calls deliver from
a byte list (a dangling final byte yields no further complete item). -/
def bytesToI16s : List ℕ → List ℤ
  | b0 :: b1 :: rest => toI16 (b0 + 256 * b1) :: bytesToI16s rest
  | _ => []

/-- The 32-bit words that successive fread(&x, 4, 1) calls deliver from a
byte list. -/
def bytesToU32s : List ℕ → List ℕ
  | b0 :: b1 :: b2 :: b3 :: rest =>
    le32 [b0, b1, b2, b3] :: bytesToU32s rest
  | _ => []

/-- Embedding of Nin = fmti.data_size / fmti.blockalign (wavefmt.c line 336,
C unsigned division). -/
def Nin_of (data_size blockalign : ℕ) : ℕ := data_size / blockalign

/-- Embedding of Nout = (t == 0.0) ? Nin : fmto.samplerate * t (wavefmt.c
line 337); the double product converted to unsigned int truncates toward
zero. -/
def Nout_of (Nin samplerate : ℕ) (t : ℚ) : ℕ :=
  if t = 0 then Nin else (⌊(samplerate : ℚ) * t⌋).toNat

/-- Embedding of the output-header construction of wavefmt_filter (wavefmt.c
lines 335-344), with 32-bit wraparound on the stored u32 fields. -/
def mkOutputHeader (fmti : Wavefmt) (format Nout : ℕ) : Wavefmt :=
  let blockalign := if format = WAVEFMT_FLOAT then 4 else 2
  let data_size := Nout * blockalign % 2 ^ 32
  { fmti with
      format := format
      fmt_size := 16
      bitspersample := if format = WAVEFMT_FLOAT then 32 else 16
      blockalign := blockalign
      byterate := blockalign * fmti.samplerate % 2 ^ 32
      data_size := data_size
      riff_size := (data_size + 16 + 8 + 8 + 4) % 2 ^ 32 }

/-- Observable outcome of wavefmt_filter: return code, which file handles
were opened and which were closed, the emitted sample stream (float or PCM
depending on the output format), and the output header that was written. -/
structure FilterResult where
  ret : ℤ
  fpiOpened : Bool
  fpoOpened : Bool
  fpiClosed : Bool
  fpoClosed : Bool
  outFloat : List ℚ
  outPcm : List ℤ
  fmto : Option Wavefmt
deriving Repr, DecidableEq

/-- Embedding of wavefmt_filter (wavefmt.c lines 304-366).  inOpen and
outOpen say whether the two fopens succeed; init is the uninitialized local
struct fmti; contents are the bytes of the input file; f32 interprets a raw
32-bit word as a float sample (left abstract, the PCM claims never reach it).
none means either the header parse or a sample loop is still running after
the given fuel. -/
def wavefmt_filter {σ : Type} (fuel : ℕ) (f32 : ℕ → ℚ) (inOpen outOpen : Bool)
    (init : Wavefmt) (contents : List ℕ) (f : ℚ → σ → ℚ × σ) (st : σ)
    (format : ℕ) (t : ℚ) : Option FilterResult :=
  if inOpen then
    if outOpen then
      match wavefmt_read_header fuel init ⟨contents, 0, false⟩ with
      | none => none
      | some r =>
        let fmti := r.1
        let fpi := r.2.1
        if r.2.2 = 0 then
          some ⟨-3, true, true, false, false, [], [], none⟩
        else if fmti.channels ≠ 1 then
          some ⟨-4, true, true, false, false, [], [], none⟩
        else if format ≠ WAVEFMT_PCM ∧ format ≠ WAVEFMT_FLOAT then
          some ⟨-4, true, true, false, false, [], [], none⟩
        else
          let Nin := Nin_of fmti.data_size fmti.blockalign
          let Nout := Nout_of Nin fmti.samplerate t
          let fmto := mkOutputHeader fmti format Nout
          let payload := fpi.data.drop fpi.pos
          if fmti.format = WAVEFMT_PCM ∧ fmti.bitspersample = 16 then
            if format = WAVEFMT_FLOAT then
              match filter_pcm2float fuel f st Nin Nout
                  (bytesToI16s payload) with
              | none => none
              | some o => some ⟨0, true, true, true, true, o.1, [], some fmto⟩
            else if format = WAVEFMT_PCM then
              match filter_pcm2pcm fuel f st Nin Nout
                  (bytesToI16s payload) with
              | none => none
              | some o => some ⟨0, true, true, true, true, [], o.1, some fmto⟩
            else
              some ⟨0, true, true, true, true, [], [], some fmto⟩
          else if fmti.format = WAVEFMT_FLOAT ∧ fmti.bitspersample = 32 then
            if format = WAVEFMT_FLOAT then
              match filter_float2float fuel f st Nin Nout
                  ((bytesToU32s payload).map f32) with
              | none => none
              | some o => some ⟨0, true, true, true, true, o.1, [], some fmto⟩
            else if format = WAVEFMT_PCM then
              match filter_float2pcm fuel f st Nin Nout
                  ((bytesToU32s payload).map f32) with
              | none => none
              | some o => some ⟨0, true, true, true, true, [], o.1, some fmto⟩
            else
              some ⟨0, true, true, true, true, [], [], some fmto⟩
          else
            some ⟨-4, true, true, false, false, [], [], some fmto⟩
    else
      some ⟨-2, true, false, false, false, [], [], none⟩
  else
    some ⟨-2, false, false, false, false, [], [], none⟩

/-- A concrete all-zero struct standing for the caller's uninitialized
struct wavefmt in the closed evaluations below. -/
def initZero : Wavefmt :=
  ⟨(0, 0, 0, 0), 0, (0, 0, 0, 0), (0, 0, 0, 0), 0, 0, 0, 0, 0, 0, 0,
   (0, 0, 0, 0), 0⟩

/-- A 12-byte file holding only the RIFF preamble: RIFF, riff_size = 4, WAVE,
and then end of file before any chunk tag. -/
def truncatedFile : List ℕ := tagBytes RIFF_lit ++ toLE4 4 ++ tagBytes WAVE_lit

/-- A file whose first four bytes are RIFX instead of RIFF. -/
def badMagicFile : List ℕ := [82, 73, 70, 88] ++ toLE4 4 ++ tagBytes WAVE_lit

/-- A well-formed 44-byte mono PCM16 header whose byterate field (7) does not
equal blockalign * samplerate (2 * 8000): the parser accepts it anyway. -/
def badByterateFile : List ℕ :=
  tagBytes RIFF_lit ++ toLE4 36 ++ tagBytes WAVE_lit ++
  tagBytes FMT_lit ++ toLE4 16 ++ toLE2 1 ++ toLE2 1 ++ toLE4 8000 ++
  toLE4 7 ++ toLE2 2 ++ toLE2 16 ++ tagBytes DATA_lit ++ toLE4 0

/-- The struct produced by parsing badByterateFile from initZero. -/
def badByterateParsed : Wavefmt :=
  ⟨RIFF_lit, 36, WAVE_lit, FMT_lit, 16, 1, 1, 8000, 7, 2, 16, DATA_lit, 0⟩

/-- A file whose chunk sequence is RIFF / WAVE / data with no fmt chunk. -/
def dataBeforeFmtFile : List ℕ :=
  tagBytes RIFF_lit ++ toLE4 4 ++ tagBytes WAVE_lit ++ tagBytes DATA_lit ++
  toLE4 0

/-- A complete mono PCM16 wav file: samplerate 8192, data_size 4 (two int16
samples, both zero).  With t = 1/8192 the requested output length Nout is 1
while Nin is 2. -/
def twoSampleFile : List ℕ :=
  tagBytes RIFF_lit ++ toLE4 40 ++ tagBytes WAVE_lit ++
  tagBytes FMT_lit ++ toLE4 16 ++ toLE2 1 ++ toLE2 1 ++ toLE4 8192 ++
  toLE4 16384 ++ toLE2 2 ++ toLE2 16 ++ tagBytes DATA_lit ++ toLE4 4 ++
  [0, 0, 0, 0]

/-- The struct produced by parsing twoSampleFile from initZero. -/
def twoSampleParsed : Wavefmt :=
  ⟨RIFF_lit, 40, WAVE_lit, FMT_lit, 16, 1, 1, 8192, 16384, 2, 16, DATA_lit, 4⟩

/-- The clamp of every rational to the range used by the filter paths stays
inside that range. -/
theorem clamp_mem (d : ℚ) : -1 ≤ clamp d (-1) 1 ∧ clamp d (-1) 1 ≤ 1 := by
  simp only [clamp]
  split_ifs <;> constructor <;> linarith

/-- Helper for the chunk-loop invariant: read_fmt never touches the four tag
fields. -/
theorem read_fmt_tags (fmt : Wavefmt) (fp : CFile) :
    (read_fmt fmt fp).1.riff_tag = fmt.riff_tag ∧
    (read_fmt fmt fp).1.wave_tag = fmt.wave_tag ∧
    (read_fmt fmt fp).1.fmt_tag = fmt.fmt_tag ∧
    (read_fmt fmt fp).1.data_tag = fmt.data_tag := by
  unfold read_fmt
  dsimp only
  split_ifs <;> exact ⟨rfl, rfl, rfl, rfl⟩

/-- Chunk-loop invariant: the loop preserves the riff and wave tags, and the
fmt and data tags are either the literal just matched or whatever they were
on entry. -/
theorem readHeaderLoop_tags : ∀ (fuel : ℕ) (fmt : Wavefmt) (fp : CFile)
    (bc : ℕ) (fmt1 : Wavefmt) (fp1 : CFile) (bc1 : ℕ),
    readHeaderLoop fuel fmt fp bc = some (fmt1, fp1, bc1) →
    fmt1.riff_tag = fmt.riff_tag ∧ fmt1.wave_tag = fmt.wave_tag ∧
    (fmt1.fmt_tag = FMT_lit ∨ fmt1.fmt_tag = fmt.fmt_tag) ∧
    (fmt1.data_tag = DATA_lit ∨ fmt1.data_tag = fmt.data_tag) := by
  intro fuel
  induction fuel with
  | zero =>
    intro fmt fp bc fmt1 fp1 bc1 h
    simp only [readHeaderLoop] at h
    split_ifs at h
    · simp only [Option.some.injEq, Prod.mk.injEq] at h
      obtain ⟨h1, _, _⟩ := h
      subst h1
      exact ⟨rfl, rfl, Or.inr rfl, Or.inr rfl⟩
  | succ n ih =>
    intro fmt fp bc fmt1 fp1 bc1 h
    simp only [readHeaderLoop] at h
    split_ifs at h with heof htagf htagd
    · simp only [Option.some.injEq, Prod.mk.injEq] at h
      obtain ⟨h1, _, _⟩ := h
      subst h1
      exact ⟨rfl, rfl, Or.inr rfl, Or.inr rfl⟩
    · obtain ⟨e1, e2, e3, e4⟩ := ih _ _ _ _ _ _ h
      have rt := read_fmt_tags
        { fmt with fmt_tag := (freadTag fp (0, 0, 0, 0)).1 }
        (freadTag fp (0, 0, 0, 0)).2.2
      refine ⟨?_, ?_, ?_, ?_⟩
      · rw [e1, rt.1]
      · rw [e2, rt.2.1]
      · rcases e3 with h3 | h3
        · exact Or.inl h3
        · exact Or.inl (h3.trans (rt.2.2.1.trans htagf))
      · rcases e4 with h4 | h4
        · exact Or.inl h4
        · exact Or.inr (h4.trans rt.2.2.2)
    · simp only [read_data, Option.some.injEq, Prod.mk.injEq] at h
      obtain ⟨h1, _, _⟩ := h
      subst h1
      exact ⟨rfl, rfl, Or.inr rfl, Or.inl htagd⟩
    · exact ih _ _ _ _ _ _ h

/-- At the end of truncatedFile the chunk loop never finishes: the chunk-tag
fread returns 0 bytes and sets the end-of-file indicator, but the fseek of
the skip branch clears it again, so the loop state repeats forever. -/
theorem readHeaderLoop_stuck (fuel : ℕ) : ∀ (fmt : Wavefmt) (bc : ℕ),
    readHeaderLoop fuel fmt ⟨truncatedFile, 12, false⟩ bc = none := by
  induction fuel with
  | zero => intro fmt bc; rfl
  | succ n ih => intro fmt bc; exact ih fmt bc

/-- When the payload is exhausted before n reaches Nin, the pcm input loop
makes no progress for any amount of fuel: fread returns 0, n stays put. -/
theorem pcm2float_loop_starves {σ : Type} (f : ℚ → σ → ℚ × σ) :
    ∀ (fuel : ℕ) (c : ℤ) (st : σ),
      filter_pcm2float_loop f fuel 0 1 c [] st = none := by
  intro fuel
  induction fuel with
  | zero => intro c st; rfl
  | succ n ih =>
    intro c st
    simp only [filter_pcm2float_loop, ih, Option.map_none']
    norm_num

/-- Float-input analogue of pcm2float_loop_starves. -/
theorem float2float_loop_starves {σ : Type} (f : ℚ → σ → ℚ × σ) :
    ∀ (fuel : ℕ) (c : ℚ) (st : σ),
      filter_float2float_loop f fuel 0 1 c [] st = none := by
  intro fuel
  induction fuel with
  | zero => intro c st; rfl
  | succ n ih =>
    intro c st
    simp only [filter_float2float_loop, ih, Option.map_none']
    norm_num

/-- With the identity callback the pcm-to-pcm input loop emits exactly the
clamped re-encoding of each input sample. -/
theorem pcm2pcm_loop_identity :
    ∀ (input : List ℤ) (fuel n Nin : ℕ) (c : ℤ),
      Nin = n + input.length → input.length ≤ fuel →
      filter_pcm2pcm_loop identity_cb fuel n Nin c input () =
        some (input.map (fun s => pcm16_encode (clamp (pcm16_decode s) (-1) 1)),
          (), Nin) := by
  intro input
  induction input with
  | nil =>
    intro fuel n Nin c hN _
    simp only [List.length_nil] at hN
    rw [filter_pcm2pcm_loop.eq_def]
    dsimp only
    rw [if_neg (by omega)]
    simp [hN]
  | cons s rest ih =>
    intro fuel n Nin c hN hf
    simp only [List.length_cons] at hN hf
    cases fuel with
    | zero => omega
    | succ m =>
      simp only [filter_pcm2pcm_loop, identity_cb]
      rw [if_pos (by omega)]
      rw [ih m (n + 1) Nin _ (by omega) (by omega)]
      simp

/-- With the identity callback the pcm-to-float input loop emits exactly the
clamped decoding of each input sample. -/
theorem pcm2float_loop_identity :
    ∀ (input : List ℤ) (fuel n Nin : ℕ) (c : ℤ),
      Nin = n + input.length → input.length ≤ fuel →
      filter_pcm2float_loop identity_cb fuel n Nin c input () =
        some (input.map (fun s => clamp (pcm16_decode s) (-1) 1), (), Nin) := by
  intro input
  induction input with
  | nil =>
    intro fuel n Nin c hN _
    simp only [List.length_nil] at hN
    rw [filter_pcm2float_loop.eq_def]
    dsimp only
    rw [if_neg (by omega)]
    simp [hN]
  | cons s rest ih =>
    intro fuel n Nin c hN hf
    simp only [List.length_cons] at hN hf
    cases fuel with
    | zero => omega
    | succ m =>
      simp only [filter_pcm2float_loop, identity_cb]
      rw [if_pos (by omega)]
      rw [ih m (n + 1) Nin _ (by omega) (by omega)]
      simp

/-- Every float sample emitted by the ring-out loop is clamped. -/
theorem ringout_float_bounds {σ : Type} (f : ℚ → σ → ℚ × σ) :
    ∀ (k : ℕ) (st : σ) (y : ℚ), y ∈ (filter_ringout_float f k st).1 →
      -1 ≤ y ∧ y ≤ 1 := by
  intro k
  induction k with
  | zero => intro st y hy; simp [filter_ringout_float] at hy
  | succ m ih =>
    intro st y hy
    simp only [filter_ringout_float] at hy
    rcases List.mem_cons.mp hy with rfl | hmem
    · exact clamp_mem _
    · exact ih _ y hmem

/-- Every pcm sample emitted by the ring-out loop is the encoding of a
clamped value. -/
theorem ringout_pcm_bounds {σ : Type} (f : ℚ → σ → ℚ × σ) :
    ∀ (k : ℕ) (st : σ) (e : ℤ), e ∈ (filter_ringout_pcm f k st).1 →
      ∃ y, (-1 ≤ y ∧ y ≤ 1) ∧ e = pcm16_encode y := by
  intro k
  induction k with
  | zero => intro st e he; simp [filter_ringout_pcm] at he
  | succ m ih =>
    intro st e he
    simp only [filter_ringout_pcm] at he
    rcases List.mem_cons.mp he with rfl | hmem
    · exact ⟨_, clamp_mem _, rfl⟩
    · exact ih _ e hmem

/-- Every float sample emitted by the pcm input loop is clamped. -/
theorem pcm2float_loop_bounds {σ : Type} (f : ℚ → σ → ℚ × σ) :
    ∀ (fuel n Nin : ℕ) (c : ℤ) (input : List ℤ) (st : σ) (os : List ℚ)
      (st1 : σ) (n1 : ℕ),
      filter_pcm2float_loop f fuel n Nin c input st = some (os, st1, n1) →
      ∀ y ∈ os, -1 ≤ y ∧ y ≤ 1 := by
  intro fuel
  induction fuel with
  | zero =>
    intro n Nin c input st os st1 n1 h y hy
    rw [filter_pcm2float_loop.eq_def] at h
    dsimp only at h
    split_ifs at h
    simp only [Option.some.injEq, Prod.mk.injEq] at h
    obtain ⟨h1, _⟩ := h
    subst h1
    simp at hy
  | succ m ih =>
    intro n Nin c input st os st1 n1 h y hy
    rw [filter_pcm2float_loop.eq_def] at h
    dsimp only at h
    split_ifs at h
    · cases input with
      | nil =>
        dsimp only at h
        rw [Option.map_eq_some'] at h
        obtain ⟨a, ha, hb⟩ := h
        simp only [Prod.mk.injEq] at hb
        obtain ⟨h1, _⟩ := hb
        subst h1
        rcases List.mem_cons.mp hy with rfl | hmem
        · exact clamp_mem _
        · exact ih _ _ _ _ _ _ _ _ ha y hmem
      | cons s rest =>
        dsimp only at h
        rw [Option.map_eq_some'] at h
        obtain ⟨a, ha, hb⟩ := h
        simp only [Prod.mk.injEq] at hb
        obtain ⟨h1, _⟩ := hb
        subst h1
        rcases List.mem_cons.mp hy with rfl | hmem
        · exact clamp_mem _
        · exact ih _ _ _ _ _ _ _ _ ha y hmem
    · simp only [Option.some.injEq, Prod.mk.injEq] at h
      obtain ⟨h1, _⟩ := h
      subst h1
      simp at hy

/-- Every sample emitted by the pcm-to-pcm input loop is the encoding of a
clamped value. -/
theorem pcm2pcm_loop_bounds {σ : Type} (f : ℚ → σ → ℚ × σ) :
    ∀ (fuel n Nin : ℕ) (c : ℤ) (input : List ℤ) (st : σ) (os : List ℤ)
      (st1 : σ) (n1 : ℕ),
      filter_pcm2pcm_loop f fuel n Nin c input st = some (os, st1, n1) →
      ∀ e ∈ os, ∃ y, (-1 ≤ y ∧ y ≤ 1) ∧ e = pcm16_encode y := by
  intro fuel
  induction fuel with
  | zero =>
    intro n Nin c input st os st1 n1 h e he
    rw [filter_pcm2pcm_loop.eq_def] at h
    dsimp only at h
    split_ifs at h
    simp only [Option.some.injEq, Prod.mk.injEq] at h
    obtain ⟨h1, _⟩ := h
    subst h1
    simp at he
  | succ m ih =>
    intro n Nin c input st os st1 n1 h e he
    rw [filter_pcm2pcm_loop.eq_def] at h
    dsimp only at h
    split_ifs at h
    · cases input with
      | nil =>
        dsimp only at h
        rw [Option.map_eq_some'] at h
        obtain ⟨a, ha, hb⟩ := h
        simp only [Prod.mk.injEq] at hb
        obtain ⟨h1, _⟩ := hb
        subst h1
        rcases List.mem_cons.mp he with rfl | hmem
        · exact ⟨_, clamp_mem _, rfl⟩
        · exact ih _ _ _ _ _ _ _ _ ha e hmem
      | cons s rest =>
        dsimp only at h
        rw [Option.map_eq_some'] at h
        obtain ⟨a, ha, hb⟩ := h
        simp only [Prod.mk.injEq] at hb
        obtain ⟨h1, _⟩ := hb
        subst h1
        rcases List.mem_cons.mp he with rfl | hmem
        · exact ⟨_, clamp_mem _, rfl⟩
        · exact ih _ _ _ _ _ _ _ _ ha e hmem
    · simp only [Option.some.injEq, Prod.mk.injEq] at h
      obtain ⟨h1, _⟩ := h
      subst h1
      simp at he

/-- Every float sample emitted by the float input loop is clamped. -/
theorem float2float_loop_bounds {σ : Type} (f : ℚ → σ → ℚ × σ) :
    ∀ (fuel n Nin : ℕ) (c : ℚ) (input : List ℚ) (st : σ) (os : List ℚ)
      (st1 : σ) (n1 : ℕ),
      filter_float2float_loop f fuel n Nin c input st = some (os, st1, n1) →
      ∀ y ∈ os, -1 ≤ y ∧ y ≤ 1 := by
  intro fuel
  induction fuel with
  | zero =>
    intro n Nin c input st os st1 n1 h y hy
    rw [filter_float2float_loop.eq_def] at h
    dsimp only at h
    split_ifs at h
    simp only [Option.some.injEq, Prod.mk.injEq] at h
    obtain ⟨h1, _⟩ := h
    subst h1
    simp at hy
  | succ m ih =>
    intro n Nin c input st os st1 n1 h y hy
    rw [filter_float2float_loop.eq_def] at h
    dsimp only at h
    split_ifs at h
    · cases input with
      | nil =>
        dsimp only at h
        rw [Option.map_eq_some'] at h
        obtain ⟨a, ha, hb⟩ := h
        simp only [Prod.mk.injEq] at hb
        obtain ⟨h1, _⟩ := hb
        subst h1
        rcases List.mem_cons.mp hy with rfl | hmem
        · exact clamp_mem _
        · exact ih _ _ _ _ _ _ _ _ ha y hmem
      | cons v rest =>
        dsimp only at h
        rw [Option.map_eq_some'] at h
        obtain ⟨a, ha, hb⟩ := h
        simp only [Prod.mk.injEq] at hb
        obtain ⟨h1, _⟩ := hb
        subst h1
        rcases List.mem_cons.mp hy with rfl | hmem
        · exact clamp_mem _
        · exact ih _ _ _ _ _ _ _ _ ha y hmem
    · simp only [Option.some.injEq, Prod.mk.injEq] at h
      obtain ⟨h1, _⟩ := h
      subst h1
      simp at hy

/-- Every sample emitted by the float-to-pcm input loop is the encoding of a
clamped value. -/
theorem float2pcm_loop_bounds {σ : Type} (f : ℚ → σ → ℚ × σ) :
    ∀ (fuel n Nin : ℕ) (c : ℚ) (input : List ℚ) (st : σ) (os : List ℤ)
      (st1 : σ) (n1 : ℕ),
      filter_float2pcm_loop f fuel n Nin c input st = some (os, st1, n1) →
      ∀ e ∈ os, ∃ y, (-1 ≤ y ∧ y ≤ 1) ∧ e = pcm16_encode y := by
  intro fuel
  induction fuel with
  | zero =>
    intro n Nin c input st os st1 n1 h e he
    rw [filter_float2pcm_loop.eq_def] at h
    dsimp only at h
    split_ifs at h
    simp only [Option.some.injEq, Prod.mk.injEq] at h
    obtain ⟨h1, _⟩ := h
    subst h1
    simp at he
  | succ m ih =>
    intro n Nin c input st os st1 n1 h e he
    rw [filter_float2pcm_loop.eq_def] at h
    dsimp only at h
    split_ifs at h
    · cases input with
      | nil =>
        dsimp only at h
        rw [Option.map_eq_some'] at h
        obtain ⟨a, ha, hb⟩ := h
        simp only [Prod.mk.injEq] at hb
        obtain ⟨h1, _⟩ := hb
        subst h1
        rcases List.mem_cons.mp he with rfl | hmem
        · exact ⟨_, clamp_mem _, rfl⟩
        · exact ih _ _ _ _ _ _ _ _ ha e hmem
      | cons v rest =>
        dsimp only at h
        rw [Option.map_eq_some'] at h
        obtain ⟨a, ha, hb⟩ := h
        simp only [Prod.mk.injEq] at hb
        obtain ⟨h1, _⟩ := hb
        subst h1
        rcases List.mem_cons.mp he with rfl | hmem
        · exact ⟨_, clamp_mem _, rfl⟩
        · exact ih _ _ _ _ _ _ _ _ ha e hmem
    · simp only [Option.some.injEq, Prod.mk.injEq] at h
      obtain ⟨h1, _⟩ := h
      subst h1
      simp at he

/-- C1: the claim says a successful wavefmt_filter run writes exactly Nout
samples, truncating after Nout when Nin > Nout.  Evaluating the embedded
wavefmt_filter on a two-sample PCM16 file (Nin = 2) with t = 1/8192 at
samplerate 8192 (Nout = 1) shows the run succeeds (returns 0) yet writes 2
samples, while the output header declares data_size = Nout * blockalign = 2
bytes: the first loop always consumes all Nin samples and never truncates. -/
theorem C1_no_truncation_when_Nin_exceeds_Nout :
    (wavefmt_filter 8 (fun _ => 0) true true initZero twoSampleFile
        identity_cb () WAVEFMT_PCM (1 / 8192)).map
        (fun r => (r.ret, r.outPcm.length, r.fmto.map Wavefmt.data_size)) =
      some (0, 2, some 2) ∧
    Nout_of (Nin_of 4 2) 8192 (1 / 8192) = 1 ∧ (2 : ℕ) ≠ 1 := by
  have hnin : Nin_of 4 2 = 2 := by norm_num [Nin_of]
  have hnout : Nout_of 2 8192 (1 / 8192) = 1 := by
    norm_num [Nout_of]
  refine ⟨?_, by rw [hnin, hnout], by decide⟩
  have hdr : wavefmt_read_header 8 initZero ⟨twoSampleFile, 0, false⟩ =
      some (twoSampleParsed, ⟨twoSampleFile, 44, false⟩, 44) := by decide
  have hdrop : twoSampleFile.drop 44 = [0, 0, 0, 0] := by decide
  have hsamp : bytesToI16s [0, 0, 0, 0] = [0, 0] := by
    norm_num [bytesToI16s, toI16]
  have hloop : filter_pcm2pcm 8 identity_cb () 2 1 [0, 0] =
      some ([pcm16_encode (clamp (pcm16_decode 0) (-1) 1),
             pcm16_encode (clamp (pcm16_decode 0) (-1) 1)], ()) := by
    simp only [filter_pcm2pcm]
    rw [pcm2pcm_loop_identity [0, 0] 8 0 2 0 (by simp) (by simp)]
    simp [filter_ringout_pcm]
  simp only [wavefmt_filter, hdr]
  norm_num [twoSampleParsed, WAVEFMT_PCM, WAVEFMT_FLOAT, hnin, hnout, hdrop,
    hsamp, hloop, Nin_of, Nout_of, mkOutputHeader]

/-- C2: the claim says that on end of file before a data chunk
wavefmt_read_header returns the failure value 0 and dump and filter then
return -3.  On a file holding only RIFF, riff_size and WAVE the embedded
parser instead never returns at all, for any fuel (the chunk loop re-reads at
end of file forever because fseek clears the end-of-file indicator), so
neither the failure value 0 nor the -3 of the callers is ever produced. -/
theorem C2_eof_before_data_never_fails :
    ∀ (fuel : ℕ) (init : Wavefmt),
      wavefmt_read_header fuel init ⟨truncatedFile, 0, false⟩ = none ∧
      wavefmt_dump fuel true init truncatedFile = none ∧
      wavefmt_filter fuel (fun _ => 0) true true init truncatedFile
        identity_cb () WAVEFMT_PCM 0 = none := by
  intro fuel init
  have h1 : wavefmt_read_header fuel init ⟨truncatedFile, 0, false⟩ = none :=
    readHeaderLoop_stuck fuel _ 12
  refine ⟨h1, ?_, ?_⟩
  · simp only [wavefmt_dump, h1, if_true]
  · simp only [wavefmt_filter, h1, if_true]

/-- C3: the claim says every file handle opened by wavefmt_filter and
wavefmt_dump is closed on every exit path including the -3 and -4 paths.
Evaluating both on a file whose magic is RIFX shows the -3 path returns with
both of filter's handles (and dump's handle) still open. -/
theorem C3_error_paths_leak_handles :
    (wavefmt_filter 8 (fun _ => 0) true true initZero badMagicFile
        identity_cb () WAVEFMT_PCM 0).map
        (fun r => (r.ret, r.fpiOpened, r.fpoOpened, r.fpiClosed, r.fpoClosed)) =
      some (-3, true, true, false, false) ∧
    wavefmt_dump 8 true initZero badMagicFile = some ⟨-3, true, false⟩ := by
  constructor
  · have hdr : wavefmt_read_header 8 initZero ⟨badMagicFile, 0, false⟩ =
        some ({ initZero with riff_tag := (82, 73, 70, 88) },
          ⟨badMagicFile, 4, false⟩, 0) := by decide
    simp only [wavefmt_filter, hdr, if_true]
    rfl
  · have hdr : wavefmt_read_header 8 initZero ⟨badMagicFile, 0, false⟩ =
        some ({ initZero with riff_tag := (82, 73, 70, 88) },
          ⟨badMagicFile, 4, false⟩, 0) := by decide
    simp only [wavefmt_dump, hdr, if_true]

/-- C4 counterexample: the claim says the PCM16 encoding maps -1.0 to -32768;
the embedded encoding expression maps -1.0 to -32767 (truncating
32768.5 - 32767.0 = 1.5 to 1 and subtracting 32768). -/
theorem C4_encode_neg_one_counterexample :
    pcm16_encode (-1) = -32767 ∧ pcm16_encode (-1) ≠ -32768 := by
  constructor <;> norm_num [pcm16_encode, ctrunc]

/-- C4 amended: for every clamped y in [-1, 1] the PCM16 encoding equals
round-half-up of 32767 * y (ties toward plus infinity), and it maps 1.0 to
32767, -1.0 to -32767 (not -32768), and 0.0 to 0. -/
theorem C4_encode_round_half_up :
    (∀ y : ℚ, -1 ≤ y → y ≤ 1 → pcm16_encode y = ⌊32767 * y + 1 / 2⌋) ∧
    pcm16_encode 1 = 32767 ∧ pcm16_encode (-1) = -32767 ∧
    pcm16_encode 0 = 0 := by
  refine ⟨?_, by norm_num [pcm16_encode, ctrunc],
    by norm_num [pcm16_encode, ctrunc], by norm_num [pcm16_encode, ctrunc]⟩
  intro y h1 h2
  have hpos : (0 : ℚ) ≤ (32768.5 : ℚ) + 32767 * y := by nlinarith
  have hsplit : (32768.5 : ℚ) + 32767 * y =
      (32767 * y + 1 / 2) + (32768 : ℤ) := by
    push_cast
    ring
  rw [pcm16_encode, ctrunc, if_pos hpos, hsplit, Int.floor_add_int]
  ring

/-- C4 witness: the amended rounding law applied at y = 1/2. -/
theorem C4_encode_round_half_up_witness : pcm16_encode (1 / 2) = 16384 := by
  have h := C4_encode_round_half_up.1 (1 / 2) (by norm_num) (by norm_num)
  rw [h]
  norm_num

/-- C5 counterexample: the claim says every successfully parsed header
satisfies byterate = blockalign * samplerate.  The embedded parser accepts
badByterateFile (returning offset 44) although its byterate field is 7 while
blockalign * samplerate is 2 * 8000: the parser never checks the arithmetic
invariants. -/
theorem C5_byterate_invariant_counterexample :
    wavefmt_read_header 2 initZero ⟨badByterateFile, 0, false⟩ =
      some (badByterateParsed, ⟨badByterateFile, 44, false⟩, 44) ∧
    badByterateParsed.byterate ≠
      badByterateParsed.blockalign * badByterateParsed.samplerate ∧
    (44 : ℕ) ≠ 0 := by decide

/-- C5 amended: on every successful (nonzero) return of wavefmt_read_header
the riff and wave tags stored in the struct are the literals RIFF and WAVE,
and the fmt and data tags are the respective literals whenever the
corresponding chunk was matched (otherwise they keep the caller's initial
contents); the arithmetic relations on byterate and blockalign are not
checked and need not hold. -/
theorem C5_success_tags :
    ∀ (fuel : ℕ) (init fmt1 : Wavefmt) (fp fp1 : CFile) (bc : ℕ),
      wavefmt_read_header fuel init fp = some (fmt1, fp1, bc) → bc ≠ 0 →
      fmt1.riff_tag = RIFF_lit ∧ fmt1.wave_tag = WAVE_lit ∧
      (fmt1.fmt_tag = FMT_lit ∨ fmt1.fmt_tag = init.fmt_tag) ∧
      (fmt1.data_tag = DATA_lit ∨ fmt1.data_tag = init.data_tag) := by
  intro fuel init fmt1 fp fp1 bc h hbc
  simp only [wavefmt_read_header] at h
  split_ifs at h with hriff hwave
  · obtain ⟨e1, e2, e3, e4⟩ := readHeaderLoop_tags fuel _ _ _ _ _ _ h
    exact ⟨e1.trans hriff, e2.trans hwave, e3, e4⟩
  · simp only [Option.some.injEq, Prod.mk.injEq] at h
    omega
  · simp only [Option.some.injEq, Prod.mk.injEq] at h
    omega

/-- C5 witness: the amended tag property applied to the successful parse of
badByterateFile. -/
theorem C5_success_tags_witness :
    badByterateParsed.riff_tag = RIFF_lit ∧
    badByterateParsed.wave_tag = WAVE_lit ∧
    (badByterateParsed.fmt_tag = FMT_lit ∨
      badByterateParsed.fmt_tag = initZero.fmt_tag) ∧
    (badByterateParsed.data_tag = DATA_lit ∨
      badByterateParsed.data_tag = initZero.data_tag) :=
  C5_success_tags 2 initZero badByterateParsed ⟨badByterateFile, 0, false⟩
    ⟨badByterateFile, 44, false⟩ 44 (by decide) (by decide)

/-- C6: the claim says the sample loops terminate within
Nin + max(0, Nout - Nin) iterations even when the payload holds fewer than
Nin samples.  With Nin = 1 and an empty payload the embedded pcm and float
input loops never finish for any amount of fuel: fread returns 0 at end of
file, n never advances, and the loop body keeps re-emitting the stale
sample. -/
theorem C6_short_payload_no_termination :
    ∀ (σ : Type) (f : ℚ → σ → ℚ × σ) (st : σ) (fuel Nout : ℕ),
      filter_pcm2float fuel f st 1 Nout ([] : List ℤ) = none ∧
      filter_float2float fuel f st 1 Nout ([] : List ℚ) = none := by
  intro σ f st fuel Nout
  constructor
  · simp only [filter_pcm2float, pcm2float_loop_starves, Option.map_none']
  · simp only [filter_float2float, float2float_loop_starves, Option.map_none']

/-- C7: wavefmt_write_header does write the canonical 44-byte layout in the
field order of the data model (one fwrite of the whole struct, no ancillary
chunks), but its return value is the fwrite item count 1, not the byte count
44 that the claim (and the function's own doc comment) promises. -/
theorem C7_write_header_returns_item_count :
    ∀ (fmt : Wavefmt) (fp : CFile),
      (wavefmt_write_header fmt fp).1 = 1 ∧
      (serializeWavefmt fmt).length = 44 ∧
      (wavefmt_write_header fmt fp).2.data =
        fp.data ++ serializeWavefmt fmt ∧
      (wavefmt_write_header fmt fp).1 ≠ 44 := by
  intro fmt fp
  refine ⟨rfl, ?_, rfl, by norm_num [wavefmt_write_header]⟩
  simp [serializeWavefmt, tagBytes, toLE2, toLE4]

/-- C8: in every conversion path every sample is clamped to [-1, 1] after the
filter callback and before encoding, for every callback (identity included):
float outputs lie in [-1, 1] and pcm outputs are encodings of values in
[-1, 1], both in the streaming loop and in the ring-out. -/
theorem C8_all_paths_clamp :
    ∀ (σ : Type) (f : ℚ → σ → ℚ × σ) (st : σ) (fuel Nin Nout : ℕ),
      (∀ (input : List ℤ) (os : List ℚ) (st1 : σ),
        filter_pcm2float fuel f st Nin Nout input = some (os, st1) →
        ∀ y ∈ os, -1 ≤ y ∧ y ≤ 1) ∧
      (∀ (input : List ℚ) (os : List ℚ) (st1 : σ),
        filter_float2float fuel f st Nin Nout input = some (os, st1) →
        ∀ y ∈ os, -1 ≤ y ∧ y ≤ 1) ∧
      (∀ (input : List ℤ) (os : List ℤ) (st1 : σ),
        filter_pcm2pcm fuel f st Nin Nout input = some (os, st1) →
        ∀ e ∈ os, ∃ y, (-1 ≤ y ∧ y ≤ 1) ∧ e = pcm16_encode y) ∧
      (∀ (input : List ℚ) (os : List ℤ) (st1 : σ),
        filter_float2pcm fuel f st Nin Nout input = some (os, st1) →
        ∀ e ∈ os, ∃ y, (-1 ≤ y ∧ y ≤ 1) ∧ e = pcm16_encode y) := by
  intro σ f st fuel Nin Nout
  refine ⟨?_, ?_, ?_, ?_⟩
  · intro input os st1 h y hy
    simp only [filter_pcm2float] at h
    rw [Option.map_eq_some'] at h
    obtain ⟨a, ha, hb⟩ := h
    simp only [Prod.mk.injEq] at hb
    obtain ⟨h1, _⟩ := hb
    subst h1
    rcases List.mem_append.mp hy with hmem | hmem
    · exact pcm2float_loop_bounds f _ _ _ _ _ _ _ _ _ ha y hmem
    · exact ringout_float_bounds f _ _ y hmem
  · intro input os st1 h y hy
    simp only [filter_float2float] at h
    rw [Option.map_eq_some'] at h
    obtain ⟨a, ha, hb⟩ := h
    simp only [Prod.mk.injEq] at hb
    obtain ⟨h1, _⟩ := hb
    subst h1
    rcases List.mem_append.mp hy with hmem | hmem
    · exact float2float_loop_bounds f _ _ _ _ _ _ _ _ _ ha y hmem
    · exact ringout_float_bounds f _ _ y hmem
  · intro input os st1 h e he
    simp only [filter_pcm2pcm] at h
    rw [Option.map_eq_some'] at h
    obtain ⟨a, ha, hb⟩ := h
    simp only [Prod.mk.injEq] at hb
    obtain ⟨h1, _⟩ := hb
    subst h1
    rcases List.mem_append.mp he with hmem | hmem
    · exact pcm2pcm_loop_bounds f _ _ _ _ _ _ _ _ _ ha e hmem
    · exact ringout_pcm_bounds f _ _ e hmem
  · intro input os st1 h e he
    simp only [filter_float2pcm] at h
    rw [Option.map_eq_some'] at h
    obtain ⟨a, ha, hb⟩ := h
    simp only [Prod.mk.injEq] at hb
    obtain ⟨h1, _⟩ := hb
    subst h1
    rcases List.mem_append.mp he with hmem | hmem
    · exact float2pcm_loop_bounds f _ _ _ _ _ _ _ _ _ ha e hmem
    · exact ringout_pcm_bounds f _ _ e hmem

/-- C8 witness: the clamp bound obtained from the pcm-to-float path run on
the single sample 0 with the identity callback. -/
theorem C8_all_paths_clamp_witness : (-1 : ℚ) ≤ 0 ∧ (0 : ℚ) ≤ 1 := by
  have hrun : filter_pcm2float 1 identity_cb () 1 1 [0] = some ([0], ()) := by
    norm_num [filter_pcm2float, filter_pcm2float_loop, identity_cb,
      pcm16_decode, clamp, filter_ringout_float]
  exact (C8_all_paths_clamp Unit identity_cb () 1 1 1).1 [0] [0] () hrun 0
    (by simp)

/-- C9: with the identity callback and matching lengths (t = 0, so
Nout = Nin = number of input samples) the pcm-to-pcm path emits exactly the
clamped re-encoding of every input sample and the pcm-to-float path emits
exactly the clamped decoding, which determines the output bytes. -/
theorem C9_identity_filter_reencodes :
    ∀ input : List ℤ,
      filter_pcm2pcm input.length identity_cb () input.length input.length
          input =
        some (input.map (fun s => pcm16_encode (clamp (pcm16_decode s) (-1) 1)),
          ()) ∧
      filter_pcm2float input.length identity_cb () input.length input.length
          input =
        some (input.map (fun s => clamp (pcm16_decode s) (-1) 1), ()) := by
  intro input
  constructor
  · simp only [filter_pcm2pcm]
    rw [pcm2pcm_loop_identity input input.length 0 input.length 0 (by omega)
      (le_refl _)]
    simp [filter_ringout_pcm]
  · simp only [filter_pcm2float]
    rw [pcm2float_loop_identity input input.length 0 input.length 0 (by omega)
      (le_refl _)]
    simp [filter_ringout_float]

/-- C10: on a file whose chunk sequence is RIFF / WAVE / data with no fmt
chunk, wavefmt_read_header returns the nonzero offset 20 (success) while the
format, channels, samplerate, byterate, blockalign and bitspersample fields
keep whatever the caller's struct held: success does not require a fmt
chunk. -/
theorem C10_data_chunk_before_fmt_succeeds :
    ∀ init : Wavefmt,
      (wavefmt_read_header 1 init ⟨dataBeforeFmtFile, 0, false⟩).map
          (fun r => (r.2.2, r.1.format, r.1.channels, r.1.samplerate,
            r.1.byterate, r.1.blockalign, r.1.bitspersample)) =
        some (20, init.format, init.channels, init.samplerate, init.byterate,
          init.blockalign, init.bitspersample) ∧ (20 : ℕ) ≠ 0 := by
  intro init
  exact ⟨rfl, by decide⟩
